import Mathlib

/-!
Verification model of the SAC mass-upload template generator
(`src/backend/sac_generator.py`).

Tables loaded by pandas with `dtype=str` are modelled as lists of rows,
where each cell is an `Option String` (`none` models a pandas `NaN`).
A pandas comparison `df[col] == value` is `false` on `NaN`, a pandas
`dropna` removes `none` cells, and `isin` over a set of strings never
matches a `NaN` cell; the model mirrors those semantics.
-/

deriving instance DecidableEq for Except

namespace SacGen

/-- Python `s.endswith(suffix)` on character lists (kernel-computable form of
`String.endsWith`). -/
def strEndsWith (s suffix : String) : Bool :=
  (s.data.reverse.take suffix.data.length) == suffix.data.reverse

/-- Python `s[:n]` on character lists (kernel-computable form of `String.take`). -/
def strTake (s : String) (n : Nat) : String :=
  String.mk (s.data.take n)

/-- One row of a loaded CSV table: an association of column name to cell,
mirroring a pandas row with `dtype=str` (a `none` cell is a `NaN`). -/
structure Row where
  cells : List (String × Option String)
deriving DecidableEq

/-- Cell access `df.loc[row, col]`: first matching column, `none` when the
column is absent or the cell is `NaN`. -/
def Row.get (r : Row) (c : String) : Option String :=
  (List.lookup c r.cells).join

/-- A loaded table: ordered column names plus rows (`pd.DataFrame(dtype=str)`). -/
structure Table where
  cols : List String
  rows : List Row
deriving DecidableEq

/-- Source `find_parent_columns`: the columns whose name ends with `_PARENTID`. -/
def find_parent_columns (t : Table) : List String :=
  t.cols.filter (fun c => strEndsWith c "_PARENTID")

/-- The IDs of the rows whose cell in some parent column equals `cur`:
`df[df[col] == current]['ID'].tolist()` aggregated over the parent columns,
in the order the source iterates them. -/
def childrenOf (t : Table) (cur : String) : List String :=
  (find_parent_columns t).flatMap (fun col =>
    (t.rows.filter (fun r => r.get col == some cur)).filterMap (fun r => r.get "ID"))

/-- BFS state of `get_leaf_members`: `(descendants, to_process)`. -/
abbrev BfsState := List String × List String

/-- The inner loop body of the subtree BFS: each child not already in
`descendants` is added to both `descendants` and `to_process`. -/
def addChildren : List String → BfsState → BfsState
  | [], st => st
  | c :: cs, (desc, tp) =>
    if c ∈ desc then addChildren cs (desc, tp)
    else addChildren cs (c :: desc, c :: tp)

/-- The `while to_process:` loop of the subtree BFS, fuelled: pop one
frontier ID, gather its children over all parent columns, add the fresh
ones to the descendant set and the frontier. -/
def bfsRun (t : Table) : Nat → BfsState → BfsState
  | 0, st => st
  | _ + 1, (desc, []) => (desc, [])
  | n + 1, (desc, cur :: rest) => bfsRun t n (addChildren (childrenOf t cur) (desc, rest))

/-- All non-null values of the `ID` column. -/
def idPool (t : Table) : List String :=
  t.rows.filterMap (fun r => r.get "ID")

/-- Fuel that provably suffices for the BFS worklist to drain
(theorem `bfs_terminates`). -/
def bfsFuel (t : Table) (roots : List String) : Nat :=
  roots.length + 2 * (idPool t).length

/-- The descendant set computed by the `parent_filter` BFS of
`get_leaf_members`, starting from the given root IDs. -/
def descendantsOf (t : Table) (roots : List String) : List String :=
  (bfsRun t (bfsFuel t roots) ([], roots)).1

/-- Termination measure of the BFS worklist loop: the worklist length plus
twice the number of table IDs not yet in the descendant set.  Every loop
iteration strictly decreases it (lemmas below). -/
def bfsMeasure (t : Table) (st : BfsState) : Nat :=
  st.2.length + 2 * ((idPool t).filter (fun x => decide (x ∉ st.1))).length

/-- Reachability through one or more parent-edge steps from the root set:
exactly the IDs the source BFS collects into `descendants`
(theorem `mem_descendantsOf`). -/
inductive Reaches (t : Table) (roots : List String) : String → Prop
  | base {r x} : r ∈ roots → x ∈ childrenOf t r → Reaches t roots x
  | step {y x} : Reaches t roots y → x ∈ childrenOf t y → Reaches t roots x

/-- Restriction `df = df[df['ID'].isin(descendants)]`: restriction of the table to the
descendant set of the parent filter.  A falsy `parent_filter`
(`None`, `""` or `[]` in Python) is modelled by the empty root list and
applies no restriction. -/
def subtreeRestrict (t : Table) (pf : List String) : Table :=
  if pf.isEmpty then t
  else { t with rows := t.rows.filter (fun r =>
    match r.get "ID" with
    | some i => decide (i ∈ descendantsOf t pf)
    | none => false) }

/-- Set `all_parent_ids`: every non-null value appearing in any parent column. -/
def parentValues (t : Table) : List String :=
  (find_parent_columns t).flatMap (fun col => t.rows.filterMap (fun r => r.get col))

/-- Source `get_leaf_members`: optional subtree restriction, then keep only rows
whose ID does not occur in any parent column of the restricted table. -/
def get_leaf_members (t : Table) (pf : List String) : Table :=
  if t.rows.isEmpty then t
  else if (find_parent_columns t).isEmpty then t
  else
    let t1 := subtreeRestrict t pf
    { t1 with rows := t1.rows.filter (fun r =>
        match r.get "ID" with
        | some i => decide (i ∉ parentValues t1)
        | none => true) }

/-! ### Date-range expansion (`load_date_range`) -/

/-- The loop guard `(year, month) <= (end_year, end_m)` (tuple comparison). -/
def ymLe (y1 m1 y2 m2 : Nat) : Bool :=
  Nat.blt y1 y2 || (y1 == y2 && Nat.ble m1 m2)

/-- Step `month += 1; if month > 12: month = 1; year += 1`. -/
def nextYM (y m : Nat) : Nat × Nat :=
  if m + 1 > 12 then (y + 1, 1) else (y, m + 1)

/-- The emitted token `f"{year}{month:02d}"`. -/
def monthToken (y m : Nat) : String :=
  toString y ++ (if m < 10 then "0" ++ toString m else toString m)

/-- The `while` loop of `load_date_range`, fuelled.  For in-range inputs the
guard provably turns false before the fuel below runs out, so the fuelled
loop coincides with the unbounded `while` of the source. -/
def expandLoop (ey em : Nat) : Nat → Nat → Nat → List String
  | 0, _, _ => []
  | fuel + 1, y, m =>
    if ymLe y m ey em then
      monthToken y m :: expandLoop ey em fuel (nextYM y m).1 (nextYM y m).2
    else []

/-- Date-range expansion from `(startYear, startMonth)` to
`(endYear, endMonth)` — the loop shared by the manual-override and
version-table branches of `load_date_range`. -/
def load_date_range_manual (sy sm ey em : Nat) : List String :=
  expandLoop ey em (ey * 12 + em + 1 - (sy * 12 + sm)) sy sm

/-- The token of the `i`-th calendar month counted from year 0, month 1. -/
def tokenOfIdx (i : Nat) : String :=
  monthToken (i / 12) (i % 12 + 1)

/-! ### `remove_unassigned` -/

/-- Source `remove_unassigned`: drop rows whose ID is `#` or empty, and — when a
Description column exists — whose Description is `Unassigned`,
`Not In Hierarchy` or empty.  As in pandas, `isin` never matches a `NaN`
cell, so rows with a null ID or Description pass the corresponding test. -/
def remove_unassigned (t : Table) : Table :=
  if t.rows.isEmpty then t
  else { t with rows := t.rows.filter (fun r =>
    (match r.get "ID" with
     | some i => !(i == "#" || i == "")
     | none => true)
    && (if t.cols.contains "Description" then
          match r.get "Description" with
          | some d => !(d == "Unassigned" || d == "Not In Hierarchy" || d == "")
          | none => true
        else true)) }

/-! ### `apply_filters`

`df['Description'].str.contains(pattern, case=False, na=False)` uses the
pandas default `regex=True`, i.e. `re.search` with `re.IGNORECASE`; a `NaN`
Description yields `False`.

The model embeds `re.search` exactly on the dot-and-literal fragment: a
pattern whose characters are all non-metacharacters except possibly `.`
(predicate `plainRegexPattern`).  Such a pattern can never raise
`re.error`, contains no quantifier, alternation, group, class, anchor or
escape, and `re.search(pattern, text, re.IGNORECASE)` for it holds exactly
when at some position of the text every pattern character matches the
corresponding text character — `.` matching any character except a
newline, a literal matching up to case.  Patterns outside this fragment
(any other metacharacter, where the source follows full `re` semantics
and raises `re.error` on a malformed pattern) are outside the model, and
statements about exclusion filtering carry a `plainRegexPattern`
hypothesis.  Case folding is the simple one-to-one `Char.toLower`, which
agrees with `re.IGNORECASE` on ASCII. -/

/-- The characters that are metacharacters of Python `re` syntax —
everything special except `.`, which the model supports. -/
def isRegexMeta (c : Char) : Bool :=
  c == '^' || c == '$' || c == '*' || c == '+' || c == '?' ||
  c == '\x7b' || c == '\x7d' || c == '[' || c == ']' ||
  c == '\\' || c == '|' || c == '(' || c == ')'

/-- A pattern inside the faithfully modelled `re` fragment: no
metacharacter other than `.`.  Such a pattern is always well-formed. -/
def plainRegexPattern (p : String) : Bool :=
  p.data.all (fun c => !(isRegexMeta c))

/-- One regex atom against one text character, case-insensitively:
`.` matches any character except a newline (no `re.DOTALL` is set in the
source), a literal matches up to case. -/
def regexAtomMatches (a c : Char) : Bool :=
  (a == '.' && !(c == '\n')) || a.toLower == c.toLower

/-- Anchored match of an atom-list pattern at the head of the text. -/
def regexMatchAt : List Char → List Char → Bool
  | [], _ => true
  | _ :: _, [] => false
  | a :: ps, c :: cs => regexAtomMatches a c && regexMatchAt ps cs

/-- Python `re.search` over the dot-and-literal fragment: the pattern
matches at some position of the text. -/
def regexSearch (p s : List Char) : Bool :=
  (List.tails s).any (fun suf => regexMatchAt p suf)

/-- Test `df['Description'].str.contains(pattern, case=False, na=False)`
for one row, for a pattern in the dot-and-literal fragment. -/
def descContains (pat : String) (r : Row) : Bool :=
  match r.get "Description" with
  | some d => regexSearch pat.data d.data
  | none => false

/-- The filter spec consumed by `apply_filters` / `load_dimension`
(`filters.get(...)` defaults).  A falsy Python `parent_filter`
(`None`, `""`, `[]`) is the empty list. -/
structure Filters where
  exclude_description : List String := []
  id_list : List String := []
  parent_filter : List String := []
deriving DecidableEq

instance : Inhabited Filters := ⟨{}⟩

/-- Stable insertion of `x` into a sorted list under the boolean order
`le`; an earlier element precedes later ones of equal rank. -/
def insertLe {α : Type} (le : α → α → Bool) (x : α) : List α → List α
  | [] => [x]
  | y :: ys => if le x y then x :: y :: ys else y :: insertLe le x ys

/-- Stable insertion sort under the boolean order `le`. -/
def sortLe {α : Type} (le : α → α → Bool) : List α → List α
  | [] => []
  | x :: xs => insertLe le x (sortLe le xs)

/-- The `_sort` key: `id_list.index(x) if x in id_list else 999`. -/
def idListKey (ids : List String) (r : Row) : Nat :=
  match r.get "ID" with
  | some i => if ids.contains i then ids.indexOf i else 999
  | none => 999

/-- Sorting `df.sort_values('_sort')` over the allow-list rank.  The model sorts
stably; no property proved here depends on the order among equal keys. -/
def sortByIdList (rows : List Row) (ids : List String) : List Row :=
  sortLe (fun a b => Nat.ble (idListKey ids a) (idListKey ids b)) rows

/-- Source `apply_filters`: sequential case-insensitive regex exclusion on
Description, then allow-list restriction and reordering. -/
def apply_filters (t : Table) (f : Filters) : Table :=
  if t.rows.isEmpty then t
  else
    let t1 :=
      if !f.exclude_description.isEmpty && t.cols.contains "Description" then
        f.exclude_description.foldl
          (fun acc p => { acc with rows := acc.rows.filter (fun r => !(descContains p r)) }) t
      else t
    if f.id_list.isEmpty then t1
    else
      let kept := t1.rows.filter (fun r =>
        match r.get "ID" with
        | some i => f.id_list.contains i
        | none => false)
      { t1 with rows := sortByIdList kept f.id_list }

/-! ### ID-column fallback of `load_dimension` -/

/-- Anchored literal prefix test on character lists. -/
def charsPre : List Char → List Char → Bool
  | [], _ => true
  | _ :: _, [] => false
  | a :: ps, c :: cs => a == c && charsPre ps cs

/-- Literal substring containment on character lists. -/
def listContainsSub (pat s : List Char) : Bool :=
  (List.tails s).any (fun suf => charsPre pat suf)

/-- Test `'ID' in c.upper()`. -/
def hasIdSub (c : String) : Bool :=
  listContainsSub "ID".data (c.data.map Char.toUpper)

/-- The substitute-ID-column choice of `load_dimension`:
`[c for c in df.columns if 'ID' in c.upper() or c == df.columns[0]]`,
then the first entry; `none` models the empty candidate list. -/
def id_fallback (cols : List String) : Option String :=
  (cols.filter (fun c => hasIdSub c || cols.head? == some c)).head?

/-- Modelled from the spec (§4.2, §9): the ordered fallback rule
"name containing \"ID\" → first column", stated as a pure decision
function over the column-name list, for comparison with `id_fallback`. -/
def spec_id_fallback (cols : List String) : Option String :=
  match (cols.filter (fun c => hasIdSub c)).head? with
  | some c => some c
  | none => cols.head?

/-- Case-insensitive literal substring containment between strings —
the reading of "contains as a literal substring" used by claim C6. -/
def litContainsCI (s pat : String) : Bool :=
  listContainsSub (pat.data.map Char.toLower) (s.data.map Char.toLower)

/-! ### Dimension and template configuration -/

/-- One member of the canonical `(ID, Description)` output. -/
structure Member where
  id : String
  desc : Option String
deriving DecidableEq

/-- A `dimensions.json` record, with the `dim_config.get(...)` defaults of
`load_dimension` as field defaults. -/
structure DimConfig where
  name : String := "unknown"
  sac_name : Option String := none
  has_hierarchy : Bool := true
  filters : Filters := {}
  extract_column : Option String := none
  numeric_sort : Bool := false
  table_name : Option String := none
deriving DecidableEq

instance : Inhabited DimConfig := ⟨{}⟩

/-- A `templates.json` record (the fields `create_excel` reads). -/
structure Template where
  name : String
  columns : List String
  data_rows : Option Nat := none
  output_file : Option String := none
deriving DecidableEq

/-- The filesystem the generator reads and writes: which CSV filenames
exist in the downloads directory, what loading each yields (`.error ()`
models a `CSVError` raise, a missing table entry models the `df is None`
path), and whether saving a workbook file succeeds. -/
structure Env where
  files : List String
  tables : List (String × Except Unit Table)
  saveOk : String → Bool

/-- Source `find_csv_file`: the fixed naming fallback chain, ordered by the
hierarchy flag. -/
def find_csv_file (env : Env) (sac_name : String) (has_hierarchy : Bool) : Option String :=
  let patterns :=
    if has_hierarchy then
      [sac_name ++ "MasterWithHierarchy.csv", sac_name ++ "Master.csv", sac_name ++ ".csv"]
    else
      [sac_name ++ "Master.csv", sac_name ++ ".csv", sac_name ++ "MasterWithHierarchy.csv"]
  patterns.find? (fun p => env.files.contains p)

/-- Source `load_csv` on an existing file: the table, or `.error` when the source
raises `CSVError`, or `.ok none` for the `df is None` path. -/
def load_csv (env : Env) (path : String) : Except Unit (Option Table) :=
  match List.lookup path env.tables with
  | some (.ok t) => .ok (some t)
  | some (.error _) => .error ()
  | none => .ok none

/-- First-occurrence deduplication (`pandas.Series.unique` order). -/
def dedupFirstAux (seen : List String) : List String → List String
  | [] => []
  | x :: xs =>
    if seen.contains x then dedupFirstAux seen xs
    else x :: dedupFirstAux (x :: seen) xs

/-- First-occurrence deduplication of a list of strings. -/
def dedupFirst (l : List String) : List String :=
  dedupFirstAux [] l

/-- Whitespace test used to model `str(v).strip()` being empty. -/
def isWs (c : Char) : Bool :=
  c == ' ' || c == '\t' || c == '\n' || c == '\r'

/-- Numeric parse used to model the `int(float(x))` sort key; the model
parses plain digit strings (decimal notation beyond that is not exercised
by any property proved here). -/
def natOfChars : List Char → Option Nat
  | [] => none
  | cs =>
    if cs.all (fun c => c.isDigit) then
      some (cs.foldl (fun n c => n * 10 + (c.toNat - 48)) 0)
    else none

/-- Lexicographic order on character lists (Python string `<=` on
codepoints). -/
def charsLe : List Char → List Char → Bool
  | [], _ => true
  | _ :: _, [] => false
  | a :: as1, b :: bs => if a == b then charsLe as1 bs else decide (a < b)

/-- Source `extract_column_values`: distinct non-empty, non-sentinel values of a
column, sorted numerically (falling back to lexical) or lexically, each
value serving as both ID and Description. -/
def extract_column_values (env : Env) (sac_name column : String)
    (has_hierarchy numeric_sort : Bool) : Except Unit (List Member) :=
  match find_csv_file env sac_name has_hierarchy with
  | none => .ok []
  | some path =>
    match load_csv env path with
    | .error _ => .error ()
    | .ok none => .ok []
    | .ok (some df) =>
      if !df.cols.contains column then .ok []
      else
        let raw := dedupFirst (df.rows.filterMap (fun r => r.get column))
        let values := raw.filter (fun v =>
          !(v == "") && !(v.data.all isWs) && !(v == "#") && !(v == "Not In Hierarchy"))
        let sortedVals :=
          if numeric_sort && values.all (fun v => (natOfChars v.data).isSome) then
            sortLe (fun a b =>
              Nat.ble ((natOfChars a.data).getD 0) ((natOfChars b.data).getD 0)) values
          else
            sortLe (fun a b => charsLe a.data b.data) values
        .ok (sortedVals.map (fun v => { id := v, desc := some v }))

/-- Rename every column named `old` to `new` (`df.rename(columns=...)`). -/
def renameCol (t : Table) (old new : String) : Table :=
  { cols := t.cols.map (fun c => if c == old then new else c),
    rows := t.rows.map (fun r =>
      { cells := r.cells.map (fun kv => (if kv.1 == old then new else kv.1, kv.2)) }) }

/-- What `load_dimension` returns together with the warnings and errors it
records on `self.warnings` / `self.errors`. -/
structure LoadOutcome where
  members : List Member
  warnings : List String := []
  errors : List String := []
deriving DecidableEq

/-- Source `load_dimension`: resolve the backing file, ensure an ID column
(with the `id_fallback` substitution), then run the pipeline
`remove_unassigned` → `apply_filters` → leaf extraction →
allow-list re-application → `(ID, Description)` projection.
`.error` models a raised `DimensionError`. -/
def load_dimension (env : Env) (dim : DimConfig) : Except String LoadOutcome :=
  match dim.sac_name with
  | none => .error ("Dimension " ++ dim.name ++ " has no sac_name configured")
  | some sac =>
    match dim.extract_column with
    | some col =>
      match extract_column_values env sac col dim.has_hierarchy dim.numeric_sort with
      | .ok ms => .ok { members := ms }
      | .error _ => .error ("Failed to extract column " ++ col ++ " for " ++ dim.name)
    | none =>
      match find_csv_file env sac dim.has_hierarchy with
      | none => .ok { members := [], warnings := ["CSV file not found for " ++ sac] }
      | some path =>
        match load_csv env path with
        | .error _ => .ok { members := [], errors := ["CSV load failed for " ++ dim.name] }
        | .ok none => .ok { members := [], warnings := ["Could not load CSV for " ++ sac] }
        | .ok (some df0) =>
          let step1 : Option Table :=
            if df0.cols.contains "ID" then some df0
            else
              match id_fallback df0.cols with
              | some c => some (renameCol df0 c "ID")
              | none => none
          match step1 with
          | none => .ok { members := [], errors := ["No ID column found in " ++ sac] }
          | some df1 =>
            let df2 := remove_unassigned df1
            let df3 := apply_filters df2 dim.filters
            let df4 :=
              if dim.has_hierarchy then get_leaf_members df3 dim.filters.parent_filter
              else df3
            let df5 :=
              if dim.filters.id_list.isEmpty then df4
              else
                let kept := df4.rows.filter (fun r =>
                  match r.get "ID" with
                  | some i => dim.filters.id_list.contains i
                  | none => false)
                { df4 with rows := if kept.isEmpty then kept else sortByIdList kept dim.filters.id_list }
            let members : List Member :=
              if df5.cols.contains "Description" then
                df5.rows.filterMap (fun r =>
                  match r.get "ID" with
                  | some i => some { id := i, desc := r.get "Description" }
                  | none => none)
              else
                df5.rows.filterMap (fun r =>
                  match r.get "ID" with
                  | some i => some { id := i, desc := some i }
                  | none => none)
            let warns :=
              if members.isEmpty then
                ["Dimension " ++ dim.name ++ " has 0 members after filtering"]
              else []
            .ok { members := members, warnings := warns }

/-! ### `create_excel` and `generate` -/

/-- Mapping `{d["name"]: d for d in dimensions}`: on duplicate names, the later
record wins. -/
def dimLookup (dims : List DimConfig) (n : String) : Option DimConfig :=
  (dims.reverse).find? (fun d => d.name == n)

/-- The parts of the generated workbook the verified properties speak
about: the Upload-sheet header row, the number of pre-styled data-entry
rows, the per-column lookup sheets (truncated sheet name and members), and
the number of rows each list validation covers. -/
structure WorkbookModel where
  uploadHeaders : List String
  dataRows : Nat
  dimSheets : List (String × List Member)
  validationRows : Nat
deriving DecidableEq

/-- Result of one successful `create_excel` run. -/
structure CreateResult where
  workbook : WorkbookModel
  path : String
  dimension_errors : List String
deriving DecidableEq

/-- The exceptions that can escape `create_excel`
(`DimensionError` is caught inside). -/
inductive CEErr where
  | templateErr : String → CEErr
  | excelErr : String → CEErr
deriving DecidableEq

/-- The dimension-loading loop of `create_excel`: load each column once
(cached by column name), catching `DimensionError` into an empty dataset,
and collect the `dimension_errors` entries. -/
def loadColumnsAux (env : Env) (dims : List DimConfig) :
    List String → List (String × List Member) → List String →
    List (String × List Member) × List String
  | [], data, errs => (data, errs)
  | c :: cs, data, errs =>
    if (List.lookup c data).isSome then loadColumnsAux env dims cs data errs
    else
      match load_dimension env ((dimLookup dims c).getD {}) with
      | .ok out =>
        loadColumnsAux env dims cs (data ++ [(c, out.members)])
          (errs ++ (if out.members.isEmpty then [c ++ ": 0 members"] else []))
      | .error e =>
        loadColumnsAux env dims cs (data ++ [(c, [])]) (errs ++ [c ++ ": " ++ e])

/-- Default `template.get("output_file", f"{template_name}.xlsx")`. -/
def outputFileOf (t : Template) : String :=
  t.output_file.getD (t.name ++ ".xlsx")

/-- The rows styled as data entry by `_setup_upload_sheet`:
`range(2, data_rows + 2)`, where `data_rows` is the template-resolved
count `template.get("data_rows", project_default)`. -/
def setup_upload_entry_rows (data_rows : Nat) : List Nat :=
  List.range' 2 data_rows

/-- The rows covered by each list validation of `_add_data_validation`:
the range `L2:L(data_rows + 1)` where its `data_rows` is read from
`self.project["settings"]["data_rows"]` only (default 200) — the template
override is not consulted there. -/
def add_data_validation_rows (projectDataRows : Option Nat) : List Nat :=
  List.range' 2 (projectDataRows.getD 200)

/-- Source `create_excel`: validate the template structure, load every referenced
dimension (never aborting on a `DimensionError`), assemble the workbook
model and save it. -/
def create_excel (env : Env) (dims : List DimConfig) (dateRange : List String)
    (projectDataRows : Option Nat) (tmpl : Template) : Except CEErr CreateResult :=
  if tmpl.columns.isEmpty then
    .error (.templateErr ("Template " ++ tmpl.name ++ " has no columns defined"))
  else if !(tmpl.columns.filter (fun c => (dimLookup dims c).isNone)).isEmpty then
    .error (.templateErr ("Template " ++ tmpl.name ++ " references undefined dimensions"))
  else
    let ld := loadColumnsAux env dims tmpl.columns [] []
    let data_rows := tmpl.data_rows.getD (projectDataRows.getD 200)
    let wb : WorkbookModel :=
      { uploadHeaders := tmpl.columns ++ dateRange
        dataRows := data_rows
        dimSheets := tmpl.columns.map (fun c => (strTake c 31, (List.lookup c ld.1).getD []))
        validationRows := projectDataRows.getD 200 }
    if env.saveOk (outputFileOf tmpl) then
      .ok { workbook := wb, path := outputFileOf tmpl, dimension_errors := ld.2 }
    else .error (.excelErr ("Cannot save " ++ outputFileOf tmpl))

/-- The per-template success/failure record built by `generate`. -/
structure GenAcc where
  success : List String
  failed : List (String × CEErr)
deriving DecidableEq

/-- The per-template loop of `generate`: each template is generated with a
fresh dimension cache; a raised `SACGeneratorError` (or any exception) is
recorded under `failed` and the loop continues with the next template. -/
def generate (env : Env) (dims : List DimConfig) (dateRange : List String)
    (projectDataRows : Option Nat) (templates : List Template) : GenAcc :=
  templates.foldl
    (fun acc t =>
      match create_excel env dims dateRange projectDataRows t with
      | .ok _ => { acc with success := acc.success ++ [t.name] }
      | .error e => { acc with failed := acc.failed ++ [(t.name, e)] })
    { success := [], failed := [] }

/-! ### Concrete fixtures used by counterexamples and witnesses -/

/-- Root row of the two-row demo hierarchy. -/
def rowDemoRoot : Row :=
  { cells := [("ID", some "root"), ("Description", some "Root"), ("H1_PARENTID", none)] }

/-- Child row of the two-row demo hierarchy (`root -> a`). -/
def rowDemoA : Row :=
  { cells := [("ID", some "a"), ("Description", some "A"), ("H1_PARENTID", some "root")] }

/-- A two-row hierarchical table with the single edge `root -> a`. -/
def tDemo : Table :=
  { cols := ["ID", "Description", "H1_PARENTID"], rows := [rowDemoRoot, rowDemoA] }

/-- A table whose parent column contains a reference cycle `a <-> b`. -/
def tCyc : Table :=
  { cols := ["ID", "H1_PARENTID"],
    rows := [ { cells := [("ID", some "a"), ("H1_PARENTID", some "b")] },
              { cells := [("ID", some "b"), ("H1_PARENTID", some "a")] } ] }

/-- A flat table without any parent-reference column. -/
def tFlat : Table :=
  { cols := ["ID", "Description"],
    rows := [{ cells := [("ID", some "x"), ("Description", some "X")] }] }

/-- A single row whose Description is `AXB`. -/
def rowC6 : Row :=
  { cells := [("ID", some "1"), ("Description", some "AXB")] }

/-- A one-row table used by the exclusion-filter counterexample. -/
def tC6 : Table :=
  { cols := ["ID", "Description"], rows := [rowC6] }

/-- An environment whose downloads directory is empty and whose output
directory is writable. -/
def envNoFiles : Env :=
  { files := [], tables := [], saveOk := fun _ => true }

/-- One configured dimension `D` backed by source identifier `D`. -/
def dimD : DimConfig :=
  { name := "D", sac_name := some "D" }

/-- A dimension list containing only `dimD`. -/
def dimsD : List DimConfig := [dimD]

/-- A template over column `D` with a per-template `data_rows` of 5. -/
def tmplDr5 : Template :=
  { name := "T", columns := ["D"], data_rows := some 5 }

/-- A template with no columns (a structural `TemplateError` case). -/
def tmplNoCols : Template :=
  { name := "Bad", columns := [] }

end SacGen

/-! ## Theorems -/

namespace SacGen

/-- Claim C10: if a table has no column ending in `_PARENTID`,
`get_leaf_members` returns it unchanged — every member is treated as a
leaf — and any configured parent-subtree filter is silently ignored. -/
theorem c10_no_parent_columns_returns_unchanged (t : Table) (pf : List String)
    (h : find_parent_columns t = []) : get_leaf_members t pf = t := by
  unfold get_leaf_members
  rw [h]
  simp

/-- Witness for C10 at a concrete flat table and a non-empty subtree
filter. -/
theorem c10_witness : get_leaf_members tFlat ["x"] = tFlat :=
  c10_no_parent_columns_returns_unchanged tFlat ["x"] (by decide)

/-- Claim C1: for a hierarchical table (at least one parent-reference
column), no row of the `get_leaf_members` output has an ID that occurs as
a value in any parent-reference column of the subtree-restricted table. -/
theorem c1_leaf_output_has_no_parent_ids (t : Table) (pf : List String)
    (hp : find_parent_columns t ≠ []) :
    ∀ r ∈ (get_leaf_members t pf).rows, ∀ i, r.get "ID" = some i →
      i ∉ parentValues (subtreeRestrict t pf) := by
  intro r hr i hi
  unfold get_leaf_members at hr
  by_cases he : t.rows.isEmpty
  · rw [if_pos he] at hr
    rw [List.isEmpty_iff] at he
    rw [he] at hr
    exact absurd hr (List.not_mem_nil r)
  · rw [if_neg he] at hr
    have hp' : ¬(find_parent_columns t).isEmpty = true := by
      rw [List.isEmpty_iff]; exact hp
    rw [if_neg hp'] at hr
    simp only [List.mem_filter] at hr
    have hpred := hr.2
    rw [hi] at hpred
    exact of_decide_eq_true hpred

/-- Witness for C1: in the demo table the surviving leaf `a` does not
occur in the parent column. -/
theorem c1_witness : "a" ∉ parentValues (subtreeRestrict tDemo []) :=
  c1_leaf_output_has_no_parent_ids tDemo [] (by decide) rowDemoA (by decide) "a" (by decide)

/-- Claim C5 counterexample: with columns `["Name", "MemberID"]` and no
exact `ID` column, the code substitutes the first column `Name`, not the
ID-containing column `MemberID` that the claimed ordered fallback rule
(`spec_id_fallback`) selects. -/
theorem c5_counterexample :
    id_fallback ["Name", "MemberID"] = some "Name" ∧
    spec_id_fallback ["Name", "MemberID"] = some "MemberID" ∧
    id_fallback ["Name", "MemberID"] ≠ spec_id_fallback ["Name", "MemberID"] := by
  decide

/-- Claim C5 amended: the substitution predicate
`'ID' in c.upper() or c == df.columns[0]` is satisfied by the first column
itself, so the substitute ID column is always the first column whenever
any column exists; the no-candidate error branch is taken only for an
empty column list. -/
theorem c5_amended_always_first_column :
    (∀ (c0 : String) (cs : List String), id_fallback (c0 :: cs) = some c0) ∧
    id_fallback [] = none := by
  refine ⟨fun c0 cs => ?_, rfl⟩
  simp [id_fallback, List.filter_cons]

/-- Claim C6 counterexample: with exclusion pattern `A.B`, the row whose
Description is `AXB` is removed by `apply_filters` although `A.B` is not a
case-insensitive literal substring of `AXB` — the pattern acts as a
regular expression, not as the literal substring the claim states. -/
theorem c6_counterexample :
    (apply_filters tC6 { exclude_description := ["A.B"] }).rows = [] ∧
    litContainsCI "AXB" "A.B" = false := by
  decide

/-- Claim C7: at the failing input (template `data_rows` 5, project
settings without `data_rows`), `create_excel` styles 5 data-entry rows on
the Upload sheet while `_add_data_validation` covers 200 rows: the
validation range is not the template's data-entry range. -/
theorem c7_validation_ignores_template_data_rows :
    (create_excel envNoFiles dimsD ["202501"] none tmplDr5).map
      (fun r => (r.workbook.dataRows, r.workbook.validationRows)) = .ok (5, 200) ∧
    setup_upload_entry_rows 5 ≠ add_data_validation_rows none := by
  decide

end SacGen

namespace SacGen

/-! ### Date-range expansion: characterization lemmas (claim C2) -/

/-- The loop guard holds exactly when the current month index does not
exceed the end month index, for calendar months in `1..12`. -/
theorem ymLe_eq_true_iff (y m ey em : Nat)
    (hm1 : 1 ≤ m) (hm2 : m ≤ 12) (he1 : 1 ≤ em) (he2 : em ≤ 12) :
    ymLe y m ey em = true ↔ y * 12 + m ≤ ey * 12 + em := by
  simp only [ymLe, Bool.or_eq_true, Bool.and_eq_true, Nat.blt_eq, Nat.ble_eq, beq_iff_eq]
  omega

/-- With enough fuel, the expansion loop emits exactly the tokens of the
consecutive month indices from the current month to the end month. -/
theorem expandLoop_eq_map (em : Nat) (he1 : 1 ≤ em) (he2 : em ≤ 12) (ey : Nat) :
    ∀ (n y m fuel : Nat), 1 ≤ m → m ≤ 12 →
      ey * 12 + em + 1 - (y * 12 + m) = n → n ≤ fuel →
      expandLoop ey em fuel y m =
        (List.range n).map (fun k => tokenOfIdx (y * 12 + (m - 1) + k)) := by
  intro n
  induction n with
  | zero =>
    intro y m fuel hm1 hm2 hn hf
    have hgt : ¬ (y * 12 + m ≤ ey * 12 + em) := by omega
    have hguard : ymLe y m ey em = false := by
      cases hg : ymLe y m ey em
      · rfl
      · exact absurd ((ymLe_eq_true_iff y m ey em hm1 hm2 he1 he2).mp hg) hgt
    cases fuel with
    | zero => simp [expandLoop]
    | succ f => simp [expandLoop, hguard]
  | succ n ih =>
    intro y m fuel hm1 hm2 hn hf
    obtain ⟨f, rfl⟩ : ∃ f, fuel = f + 1 := ⟨fuel - 1, by omega⟩
    have hle : y * 12 + m ≤ ey * 12 + em := by omega
    have hguard : ymLe y m ey em = true :=
      (ymLe_eq_true_iff y m ey em hm1 hm2 he1 he2).mpr hle
    have htok : monthToken y m = tokenOfIdx (y * 12 + (m - 1)) := by
      unfold tokenOfIdx
      congr 1 <;> omega
    have hny1 : (nextYM y m).1 * 12 + ((nextYM y m).2 - 1) = y * 12 + (m - 1) + 1 := by
      unfold nextYM
      by_cases h12 : m + 1 > 12
      · rw [if_pos h12]; simp; omega
      · rw [if_neg h12]; simp; omega
    have hny2 : 1 ≤ (nextYM y m).2 := by
      unfold nextYM
      by_cases h12 : m + 1 > 12
      · rw [if_pos h12]
      · rw [if_neg h12]; simp
    have hny3 : (nextYM y m).2 ≤ 12 := by
      unfold nextYM
      by_cases h12 : m + 1 > 12
      · rw [if_pos h12]; simp
      · rw [if_neg h12]; simp; omega
    have htail := ih (nextYM y m).1 (nextYM y m).2 f hny2 hny3 (by omega) (by omega)
    show expandLoop ey em (f + 1) y m = _
    rw [expandLoop, if_pos hguard, htok, htail, List.range_succ_eq_map]
    simp only [List.map_cons, List.map_map, Nat.add_zero]
    refine congrArg _ (List.map_congr_left fun k _ => ?_)
    simp only [Function.comp]
    congr 1
    omega

/-- Claim C2: for start and end months in `1..12` with start not after end,
`load_date_range` expansion emits exactly the inclusive consecutive
sequence of `YYYYMM` tokens from the start month to the end month â one
token per calendar month index, so strictly increasing by one month with
no gaps, with a single-element range when start equals end. -/
theorem c2_date_range_expansion (sy sm ey em : Nat)
    (hs1 : 1 ≤ sm) (hs2 : sm ≤ 12) (he1 : 1 ≤ em) (he2 : em ≤ 12)
    (_hse : sy * 12 + sm ≤ ey * 12 + em) :
    load_date_range_manual sy sm ey em =
      (List.range (ey * 12 + em + 1 - (sy * 12 + sm))).map
        (fun k => tokenOfIdx (sy * 12 + (sm - 1) + k)) := by
  unfold load_date_range_manual
  exact expandLoop_eq_map em he1 he2 ey _ sy sm _ hs1 hs2 rfl (Nat.le_refl _)

/-- Witness for C2: start `202503`, end `202601` gives exactly the 11
claimed tokens, and start == end gives a singleton. -/
theorem c2_witness :
    load_date_range_manual 2025 3 2026 1 =
      ["202503", "202504", "202505", "202506", "202507", "202508",
       "202509", "202510", "202511", "202512", "202601"] ∧
    load_date_range_manual 2025 7 2025 7 = ["202507"] := by
  constructor
  · exact (c2_date_range_expansion 2025 3 2026 1 (by decide) (by decide) (by decide)
      (by decide) (by decide)).trans (by decide)
  · exact (c2_date_range_expansion 2025 7 2025 7 (by decide) (by decide) (by decide)
      (by decide) (by decide)).trans (by decide)

end SacGen

namespace SacGen

/-! ### BFS worklist lemmas (claims C3, C4) -/

/-- Adding children never removes descendants. -/
theorem addChildren_fst_mono : ∀ (cs desc tp : List String),
    desc ⊆ (addChildren cs (desc, tp)).1 := by
  intro cs
  induction cs with
  | nil => intro desc tp; exact fun x hx => hx
  | cons c cs ih =>
    intro desc tp
    by_cases h : c ∈ desc
    · rw [addChildren, if_pos h]; exact ih desc tp
    · rw [addChildren, if_neg h]
      exact fun x hx => ih (c :: desc) (c :: tp) (List.mem_cons_of_mem c hx)

/-- Adding children never removes worklist entries. -/
theorem addChildren_snd_mono : ∀ (cs desc tp : List String),
    tp ⊆ (addChildren cs (desc, tp)).2 := by
  intro cs
  induction cs with
  | nil => intro desc tp; exact fun x hx => hx
  | cons c cs ih =>
    intro desc tp
    by_cases h : c ∈ desc
    · rw [addChildren, if_pos h]; exact ih desc tp
    · rw [addChildren, if_neg h]
      exact fun x hx => ih (c :: desc) (c :: tp) (List.mem_cons_of_mem c hx)

/-- After adding children, every child is in the descendant set. -/
theorem addChildren_mem_fst : ∀ (cs desc tp : List String), ∀ c ∈ cs,
    c ∈ (addChildren cs (desc, tp)).1 := by
  intro cs
  induction cs with
  | nil => intro desc tp c hc; exact absurd hc (List.not_mem_nil c)
  | cons a cs ih =>
    intro desc tp c hc
    by_cases h : a ∈ desc
    · rw [addChildren, if_pos h]
      rcases List.mem_cons.mp hc with rfl | hc'
      · exact addChildren_fst_mono cs desc tp h
      · exact ih desc tp c hc'
    · rw [addChildren, if_neg h]
      rcases List.mem_cons.mp hc with rfl | hc'
      · exact addChildren_fst_mono cs (c :: desc) (c :: tp) (List.mem_cons_self c desc)
      · exact ih (a :: desc) (a :: tp) c hc'

/-- Every descendant after adding children was one before or is a child. -/
theorem addChildren_fst_sub : ∀ (cs desc tp : List String), ∀ x,
    x ∈ (addChildren cs (desc, tp)).1 → x ∈ desc ∨ x ∈ cs := by
  intro cs
  induction cs with
  | nil => intro desc tp x hx; exact Or.inl hx
  | cons c cs ih =>
    intro desc tp x hx
    by_cases h : c ∈ desc
    · rw [addChildren, if_pos h] at hx
      rcases ih desc tp x hx with h1 | h2
      · exact Or.inl h1
      · exact Or.inr (List.mem_cons_of_mem c h2)
    · rw [addChildren, if_neg h] at hx
      rcases ih (c :: desc) (c :: tp) x hx with h1 | h2
      · rcases List.mem_cons.mp h1 with rfl | h1'
        · exact Or.inr (List.mem_cons_self x cs)
        · exact Or.inl h1'
      · exact Or.inr (List.mem_cons_of_mem c h2)

/-- Every worklist entry after adding children was one before or is a
child. -/
theorem addChildren_snd_sub : ∀ (cs desc tp : List String), ∀ x,
    x ∈ (addChildren cs (desc, tp)).2 → x ∈ tp ∨ x ∈ cs := by
  intro cs
  induction cs with
  | nil => intro desc tp x hx; exact Or.inl hx
  | cons c cs ih =>
    intro desc tp x hx
    by_cases h : c ∈ desc
    · rw [addChildren, if_pos h] at hx
      rcases ih desc tp x hx with h1 | h2
      · exact Or.inl h1
      · exact Or.inr (List.mem_cons_of_mem c h2)
    · rw [addChildren, if_neg h] at hx
      rcases ih (c :: desc) (c :: tp) x hx with h1 | h2
      · rcases List.mem_cons.mp h1 with rfl | h1'
        · exact Or.inr (List.mem_cons_self x cs)
        · exact Or.inl h1'
      · exact Or.inr (List.mem_cons_of_mem c h2)

/-- A descendant that is fresh (not in the old set) is on the new
worklist: children are added to both sets together. -/
theorem addChildren_fst_to_snd : ∀ (cs desc tp : List String), ∀ x,
    x ∈ (addChildren cs (desc, tp)).1 → x ∈ desc ∨ x ∈ (addChildren cs (desc, tp)).2 := by
  intro cs
  induction cs with
  | nil => intro desc tp x hx; exact Or.inl hx
  | cons c cs ih =>
    intro desc tp x hx
    by_cases h : c ∈ desc
    · rw [addChildren, if_pos h] at hx ⊢
      exact ih desc tp x hx
    · rw [addChildren, if_neg h] at hx ⊢
      rcases ih (c :: desc) (c :: tp) x hx with h1 | h2
      · rcases List.mem_cons.mp h1 with rfl | h1'
        · exact Or.inr (addChildren_snd_mono cs (x :: desc) (x :: tp)
            (List.mem_cons_self x tp))
        · exact Or.inl h1'
      · exact Or.inr h2

/-- Restricting the not-yet-seen filter to a larger seen set cannot
increase its count. -/
theorem filter_notmem_mono (c : String) (desc : List String) :
    ∀ (pool : List String),
      (pool.filter (fun x => decide (x ∉ c :: desc))).length ≤
      (pool.filter (fun x => decide (x ∉ desc))).length := by
  intro pool
  induction pool with
  | nil => exact Nat.le_refl 0
  | cons hd rest ih =>
    by_cases h1 : hd ∈ c :: desc
    · by_cases h2 : hd ∈ desc
      · rw [@List.filter_cons_of_neg _ (fun x => decide (x ∉ c :: desc)) hd rest (by simp [h1]),
          @List.filter_cons_of_neg _ (fun x => decide (x ∉ desc)) hd rest (by simp [h2])]
        exact ih
      · rw [@List.filter_cons_of_neg _ (fun x => decide (x ∉ c :: desc)) hd rest (by simp [h1]),
          @List.filter_cons_of_pos _ (fun x => decide (x ∉ desc)) hd rest (decide_eq_true h2),
          List.length_cons]
        exact Nat.le_succ_of_le ih
    · have hdne : hd ∉ desc := fun hh => h1 (List.mem_cons_of_mem c hh)
      rw [@List.filter_cons_of_pos _ (fun x => decide (x ∉ c :: desc)) hd rest (decide_eq_true h1),
        @List.filter_cons_of_pos _ (fun x => decide (x ∉ desc)) hd rest (decide_eq_true hdne),
        List.length_cons, List.length_cons]
      exact Nat.succ_le_succ ih

/-- Marking a fresh pool element as seen strictly decreases the
not-yet-seen count. -/
theorem filter_notmem_cons_length (c : String) (desc : List String) :
    ∀ (pool : List String), c ∈ pool → c ∉ desc →
      (pool.filter (fun x => decide (x ∉ c :: desc))).length + 1 ≤
      (pool.filter (fun x => decide (x ∉ desc))).length := by
  intro pool
  induction pool with
  | nil => intro hp _; exact absurd hp (List.not_mem_nil c)
  | cons hd rest ih =>
    intro hp hd0
    by_cases hc : hd = c
    · subst hc
      have h1 : hd ∈ hd :: desc := List.mem_cons_self hd desc
      rw [@List.filter_cons_of_neg _ (fun x => decide (x ∉ hd :: desc)) hd rest (by simp [h1]),
        @List.filter_cons_of_pos _ (fun x => decide (x ∉ desc)) hd rest (decide_eq_true hd0),
        List.length_cons]
      have := filter_notmem_mono hd desc rest
      omega
    · have hp' : c ∈ rest := by
        rcases List.mem_cons.mp hp with h | h
        · exact absurd h.symm hc
        · exact h
      by_cases h2 : hd ∈ desc
      · have h2' : hd ∈ c :: desc := List.mem_cons_of_mem c h2
        rw [@List.filter_cons_of_neg _ (fun x => decide (x ∉ c :: desc)) hd rest (by simp [h2']),
          @List.filter_cons_of_neg _ (fun x => decide (x ∉ desc)) hd rest (by simp [h2])]
        exact ih hp' hd0
      · have h3 : hd ∉ c :: desc := by
          intro hh
          rcases List.mem_cons.mp hh with h | h
          · exact hc h
          · exact h2 h
        rw [@List.filter_cons_of_pos _ (fun x => decide (x ∉ c :: desc)) hd rest (decide_eq_true h3),
          @List.filter_cons_of_pos _ (fun x => decide (x ∉ desc)) hd rest (decide_eq_true h2),
          List.length_cons, List.length_cons]
        have := ih hp' hd0
        omega

/-- Adding children whose IDs come from the table does not increase the
termination measure. -/
theorem addChildren_measure (t : Table) :
    ∀ (cs desc tp : List String), (∀ c ∈ cs, c ∈ idPool t) →
      bfsMeasure t (addChildren cs (desc, tp)) ≤ bfsMeasure t (desc, tp) := by
  intro cs
  induction cs with
  | nil => intro desc tp _; exact Nat.le_refl _
  | cons c cs ih =>
    intro desc tp hsub
    by_cases h : c ∈ desc
    · rw [addChildren, if_pos h]
      exact ih desc tp (fun x hx => hsub x (List.mem_cons_of_mem c hx))
    · rw [addChildren, if_neg h]
      have h1 := ih (c :: desc) (c :: tp) (fun x hx => hsub x (List.mem_cons_of_mem c hx))
      have h3 := filter_notmem_cons_length c desc (idPool t)
        (hsub c (List.mem_cons_self c cs)) h
      have h2 : bfsMeasure t (c :: desc, c :: tp) ≤ bfsMeasure t (desc, tp) := by
        simp only [bfsMeasure, List.length_cons]
        omega
      exact Nat.le_trans h1 h2

/-- Children gathered by the BFS are IDs of table rows. -/
theorem childrenOf_subset_idPool (t : Table) (cur : String) :
    ∀ c ∈ childrenOf t cur, c ∈ idPool t := by
  intro c hc
  simp only [childrenOf, List.mem_flatMap, List.mem_filterMap, List.mem_filter] at hc
  obtain ⟨col, -, r, ⟨hr, -⟩, hid⟩ := hc
  exact List.mem_filterMap.mpr ⟨r, hr, hid⟩

/-- Running the loop with no fuel is the identity. -/
theorem bfsRun_zero (t : Table) (st : BfsState) : bfsRun t 0 st = st := rfl

/-- The loop leaves a drained state unchanged: the `while` has exited. -/
theorem bfsRun_nil (t : Table) : ∀ (n : Nat) (desc : List String),
    bfsRun t n (desc, []) = (desc, []) := by
  intro n desc
  cases n with
  | zero => rfl
  | succ n => rfl

/-- With fuel at least the measure, the BFS worklist drains. -/
theorem bfsRun_drains (t : Table) :
    ∀ (n : Nat) (st : BfsState), bfsMeasure t st ≤ n → (bfsRun t n st).2 = [] := by
  intro n
  induction n with
  | zero =>
    intro st h
    have h2 : st.2.length = 0 := by simp only [bfsMeasure] at h; omega
    rw [bfsRun_zero]
    exact List.eq_nil_of_length_eq_zero h2
  | succ n ih =>
    intro st h
    obtain ⟨desc, tp⟩ := st
    cases tp with
    | nil => rw [bfsRun_nil]
    | cons cur rest =>
      show (bfsRun t n (addChildren (childrenOf t cur) (desc, rest))).2 = []
      apply ih
      have h1 := addChildren_measure t (childrenOf t cur) desc rest
        (childrenOf_subset_idPool t cur)
      have h2 : bfsMeasure t (desc, cur :: rest) = bfsMeasure t (desc, rest) + 1 := by
        simp only [bfsMeasure, List.length_cons]
        omega
      simp only [bfsMeasure] at h h1 h2 ⊢
      omega

/-- Fuel composes: running `a + b` steps is running `a` then `b`. -/
theorem bfsRun_add (t : Table) :
    ∀ (a b : Nat) (st : BfsState), bfsRun t (a + b) st = bfsRun t b (bfsRun t a st) := by
  intro a
  induction a with
  | zero => intro b st; rw [Nat.zero_add, bfsRun_zero]
  | succ a ih =>
    intro b st
    obtain ⟨desc, tp⟩ := st
    cases tp with
    | nil => rw [bfsRun_nil, bfsRun_nil, bfsRun_nil]
    | cons cur rest =>
      have e1 : a + 1 + b = (a + b) + 1 := by omega
      rw [e1]
      show bfsRun t (a + b) (addChildren (childrenOf t cur) (desc, rest)) = _
      rw [ih]
      rfl

/-- With the `bfsFuel` bound, the BFS worklist started on the root set is
fully drained. -/
theorem bfs_drained (t : Table) (roots : List String) :
    (bfsRun t (bfsFuel t roots) ([], roots)).2 = [] := by
  have hfull : (idPool t).filter (fun x => decide (x ∉ ([] : List String))) = idPool t := by
    apply List.filter_eq_self.mpr
    intro a _
    exact decide_eq_true (List.not_mem_nil a)
  have hinit : bfsMeasure t ([], roots) ≤ bfsFuel t roots := by
    simp only [bfsMeasure, bfsFuel, hfull]
    exact Nat.le_refl _
  exact bfsRun_drains t (bfsFuel t roots) ([], roots) hinit

/-- Claim C4: for every table — cyclic parent references included — the
parent-subtree BFS terminates: within the stated fuel bound the frontier
worklist drains (no new IDs are discovered, an ID already added having
never been re-expanded), and any further iteration leaves the state
unchanged. -/
theorem c4_bfs_terminates (t : Table) (roots : List String) :
    (bfsRun t (bfsFuel t roots) ([], roots)).2 = [] ∧
    ∀ m, bfsFuel t roots ≤ m →
      bfsRun t m ([], roots) = bfsRun t (bfsFuel t roots) ([], roots) := by
  have hdrain := bfs_drained t roots
  refine ⟨hdrain, fun m hm => ?_⟩
  have e : m = bfsFuel t roots + (m - bfsFuel t roots) := by omega
  have hpair : bfsRun t (bfsFuel t roots) ([], roots) =
      ((bfsRun t (bfsFuel t roots) ([], roots)).1, []) :=
    Prod.ext rfl hdrain
  rw [e, bfsRun_add, hpair, bfsRun_nil]

/-- Witness for C4 on the cyclic table `a <-> b`: the worklist drains and
extra fuel changes nothing. -/
theorem c4_witness :
    (bfsRun tCyc (bfsFuel tCyc ["a"]) ([], ["a"])).2 = [] ∧
    bfsRun tCyc 99 ([], ["a"]) = bfsRun tCyc (bfsFuel tCyc ["a"]) ([], ["a"]) :=
  ⟨(c4_bfs_terminates tCyc ["a"]).1, (c4_bfs_terminates tCyc ["a"]).2 99 (by decide)⟩

end SacGen

namespace SacGen

/-! ### BFS characterization and closure (claim C3) -/

/-- Soundness invariant of the BFS: descendants are reached IDs, worklist
entries are roots or reached IDs. -/
theorem bfs_sound_inv (t : Table) (roots : List String) :
    ∀ (n : Nat) (st : BfsState),
      (∀ x ∈ st.1, Reaches t roots x) →
      (∀ x ∈ st.2, x ∈ roots ∨ Reaches t roots x) →
      (∀ x ∈ (bfsRun t n st).1, Reaches t roots x) ∧
      (∀ x ∈ (bfsRun t n st).2, x ∈ roots ∨ Reaches t roots x) := by
  intro n
  induction n with
  | zero => intro st h1 h2; exact ⟨h1, h2⟩
  | succ n ih =>
    intro st h1 h2
    obtain ⟨desc, tp⟩ := st
    cases tp with
    | nil => exact ⟨h1, fun x hx => absurd hx (List.not_mem_nil x)⟩
    | cons cur rest =>
      have hcur : cur ∈ roots ∨ Reaches t roots cur := h2 cur (List.mem_cons_self cur rest)
      have hchild : ∀ c ∈ childrenOf t cur, Reaches t roots c := by
        intro c hc
        rcases hcur with h | h
        · exact Reaches.base h hc
        · exact Reaches.step h hc
      have hstep : bfsRun t (n + 1) (desc, cur :: rest) =
          bfsRun t n (addChildren (childrenOf t cur) (desc, rest)) := rfl
      rw [hstep]
      apply ih
      · intro x hx
        rcases addChildren_fst_sub (childrenOf t cur) desc rest x hx with h | h
        · exact h1 x h
        · exact hchild x h
      · intro x hx
        rcases addChildren_snd_sub (childrenOf t cur) desc rest x hx with h | h
        · exact h2 x (List.mem_cons_of_mem cur h)
        · exact Or.inr (hchild x h)

/-- Completeness invariant of the BFS: every root or descendant is either
still on the worklist or has all its children already collected. -/
theorem bfs_complete_inv (t : Table) (roots : List String) :
    ∀ (n : Nat) (st : BfsState),
      (∀ x, (x ∈ roots ∨ x ∈ st.1) →
        (x ∈ st.2 ∨ ∀ c ∈ childrenOf t x, c ∈ st.1)) →
      ∀ x, (x ∈ roots ∨ x ∈ (bfsRun t n st).1) →
        (x ∈ (bfsRun t n st).2 ∨ ∀ c ∈ childrenOf t x, c ∈ (bfsRun t n st).1) := by
  intro n
  induction n with
  | zero => intro st hq; exact hq
  | succ n ih =>
    intro st hq
    obtain ⟨desc, tp⟩ := st
    cases tp with
    | nil => exact hq
    | cons cur rest =>
      have hstep : bfsRun t (n + 1) (desc, cur :: rest) =
          bfsRun t n (addChildren (childrenOf t cur) (desc, rest)) := rfl
      rw [hstep]
      apply ih
      intro x hx
      have hold : (x ∈ roots ∨ x ∈ desc) →
          (x ∈ (addChildren (childrenOf t cur) (desc, rest)).2 ∨
           ∀ c ∈ childrenOf t x, c ∈ (addChildren (childrenOf t cur) (desc, rest)).1) := by
        intro hx'
        rcases hq x hx' with htp | hcl
        · rcases List.mem_cons.mp htp with rfl | hrest
          · exact Or.inr (fun c hc =>
              addChildren_mem_fst (childrenOf t x) desc rest c hc)
          · exact Or.inl (addChildren_snd_mono (childrenOf t cur) desc rest hrest)
        · exact Or.inr (fun c hc =>
            addChildren_fst_mono (childrenOf t cur) desc rest (hcl c hc))
      rcases hx with h | h
      · exact hold (Or.inl h)
      · rcases addChildren_fst_sub (childrenOf t cur) desc rest x h with h1 | h2
        · exact hold (Or.inr h1)
        · have hx1 : x ∈ (addChildren (childrenOf t cur) (desc, rest)).1 :=
            addChildren_mem_fst (childrenOf t cur) desc rest x h2
          rcases addChildren_fst_to_snd (childrenOf t cur) desc rest x hx1 with hdx | htp
          · exact hold (Or.inr hdx)
          · exact Or.inl htp

/-- Membership in the computed descendant set is exactly reachability
through one or more parent-edge steps from the root set. -/
theorem mem_descendantsOf (t : Table) (roots : List String) (x : String) :
    x ∈ descendantsOf t roots ↔ Reaches t roots x := by
  constructor
  · intro hx
    exact (bfs_sound_inv t roots (bfsFuel t roots) ([], roots)
      (fun y hy => absurd hy (List.not_mem_nil y))
      (fun y hy => Or.inl hy)).1 x hx
  · intro hx
    have hdrain := bfs_drained t roots
    have hQ := bfs_complete_inv t roots (bfsFuel t roots) ([], roots)
      (fun y hy => by
        rcases hy with h | h
        · exact Or.inl h
        · exact absurd h (List.not_mem_nil y))
    have hclosed : ∀ y, (y ∈ roots ∨ y ∈ descendantsOf t roots) →
        ∀ c ∈ childrenOf t y, c ∈ descendantsOf t roots := by
      intro y hy c hc
      rcases hQ y hy with htp | hcl
      · rw [hdrain] at htp
        exact absurd htp (List.not_mem_nil y)
      · exact hcl c hc
    induction hx with
    | base hr hc => exact hclosed _ (Or.inl hr) _ hc
    | step _ hc ihy => exact hclosed _ (Or.inr ihy) _ hc

/-- Reachability is monotone in the root set. -/
theorem Reaches_mono (t : Table) (roots roots' : List String)
    (hsub : ∀ r ∈ roots, r ∈ roots') :
    ∀ x, Reaches t roots x → Reaches t roots' x := by
  intro x hx
  induction hx with
  | base hr hc => exact Reaches.base (hsub _ hr) hc
  | step _ hc ih => exact Reaches.step ih hc

/-- Adding the BFS output to the root set does not enlarge what is
reachable. -/
theorem Reaches_append_output (t : Table) (roots : List String) :
    ∀ x, Reaches t (roots ++ descendantsOf t roots) x ↔ Reaches t roots x := by
  intro x
  constructor
  · intro hx
    induction hx with
    | base hr hc =>
      rcases List.mem_append.mp hr with h | h
      · exact Reaches.base h hc
      · exact Reaches.step ((mem_descendantsOf t roots _).mp h) hc
    | step _ hc ih => exact Reaches.step ih hc
  · exact Reaches_mono t roots _ (fun r hr => List.mem_append.mpr (Or.inl hr)) x

/-- Claim C3 counterexample: on the one-edge table `root -> a`, the
descendant computation from `["root"]` outputs `{a}`, but re-running the
computation on its own output set `{a}` yields the empty set — not the
same set, so the computation is not idempotent in the claimed sense. -/
theorem c3_counterexample :
    descendantsOf tDemo ["root"] = ["a"] ∧
    descendantsOf tDemo (descendantsOf tDemo ["root"]) = [] ∧
    descendantsOf tDemo (descendantsOf tDemo ["root"]) ≠ descendantsOf tDemo ["root"] := by
  decide

/-- Claim C3 amended: the descendant-set computation is closed in the
sense that re-running it with its own output adjoined to the root set
yields the same set — as a set of IDs — as the original run. -/
theorem c3_amended_closure (t : Table) (roots : List String) (x : String) :
    x ∈ descendantsOf t (roots ++ descendantsOf t roots) ↔
      x ∈ descendantsOf t roots := by
  rw [mem_descendantsOf, mem_descendantsOf]
  exact Reaches_append_output t roots x

end SacGen

namespace SacGen

/-! ### Exclusion-filter characterization (claim C6) -/

/-- Sequentially filtering once per pattern equals one filter keeping the
rows that match no pattern. -/
theorem exclude_foldl_eq_filter :
    ∀ (pats : List String) (t : Table),
      (pats.foldl
        (fun acc p => { acc with rows := acc.rows.filter (fun r => !(descContains p r)) })
        t).rows
      = t.rows.filter (fun r => pats.all (fun p => !descContains p r)) := by
  intro pats
  induction pats with
  | nil =>
    intro t
    simp
  | cons p ps ih =>
    intro t
    rw [List.foldl_cons, ih]
    show (t.rows.filter (fun r => !(descContains p r))).filter
        (fun r => ps.all (fun q => !descContains q r)) = _
    rw [List.filter_filter]
    apply List.filter_congr
    intro r _
    simp [List.all_cons, Bool.and_comm]

/-- Claim C6 amended: an exclusion pattern is interpreted as a
case-insensitive regular expression (the pandas `str.contains` default),
not as a literal substring.  For patterns in the dot-and-literal fragment
— no regex metacharacter other than `.`, so the pattern is well-formed and
the model's `regexSearch` is exactly `re.search` with `re.IGNORECASE` —
`apply_filters` with exclusion patterns and no allow-list keeps exactly
the rows whose Description matches none of the patterns under regex
search, `.` matching any character except a newline and rows with a
missing Description never matching.  Patterns with other metacharacters
follow full `re` semantics in the source and are outside this statement. -/
theorem c6_amended_regex_exclusion (t : Table) (pats : List String)
    (hd : t.cols.contains "Description" = true)
    (_hplain : ∀ p ∈ pats, plainRegexPattern p = true) :
    (apply_filters t { exclude_description := pats, id_list := [] }).rows
      = t.rows.filter (fun r => pats.all (fun p => !descContains p r)) := by
  by_cases he : t.rows.isEmpty
  · have hnil : t.rows = [] := List.isEmpty_iff.mp he
    simp [apply_filters, he, hnil]
  · cases pats with
    | nil => simp [apply_filters, he]
    | cons p ps =>
      have hdm : "Description" ∈ t.cols := by simpa using hd
      have hstep : apply_filters t { exclude_description := p :: ps, id_list := [] } =
          (p :: ps).foldl
            (fun acc q => { acc with rows := acc.rows.filter (fun r => !(descContains q r)) })
            t := by
        simp [apply_filters, he, hdm]
      rw [hstep, exclude_foldl_eq_filter]

/-- Witness for the amended C6 at the concrete one-row table, with the
dot-and-literal pattern `A.B`. -/
theorem c6_amended_witness :
    (apply_filters tC6 { exclude_description := ["A.B"], id_list := [] }).rows
      = tC6.rows.filter (fun r => (["A.B"]).all (fun p => !descContains p r)) :=
  c6_amended_regex_exclusion tC6 ["A.B"] (by decide) (by decide)

end SacGen

namespace SacGen

/-! ### Dimension-loading loop of `create_excel` (claims C8, C9) -/

/-- A cached lookup survives the rest of the loading loop: later columns
only append to the cache. -/
theorem loadColumnsAux_lookup_preserved (env : Env) (dims : List DimConfig) :
    ∀ (cs : List String) (data : List (String × List Member)) (errs : List String)
      (c : String) (v : List Member),
      List.lookup c data = some v →
      List.lookup c (loadColumnsAux env dims cs data errs).1 = some v := by
  intro cs
  induction cs with
  | nil => intro data errs c v h; exact h
  | cons c' cs ih =>
    intro data errs c v h
    show List.lookup c (loadColumnsAux env dims (c' :: cs) data errs).1 = some v
    rw [loadColumnsAux]
    by_cases hc : (List.lookup c' data).isSome
    · rw [if_pos hc]
      exact ih data errs c v h
    · rw [if_neg hc]
      cases hld : load_dimension env ((dimLookup dims c').getD {}) with
      | ok out =>
        exact ih _ _ c v (by rw [List.lookup_append, h]; rfl)
      | error e =>
        exact ih _ _ c v (by rw [List.lookup_append, h]; rfl)

/-- A column in the worklist that is not yet cached ends up cached with
exactly what `load_dimension` yields for it (the empty dataset when a
`DimensionError` was raised). -/
theorem loadColumnsAux_lookup_loads (env : Env) (dims : List DimConfig) :
    ∀ (cs : List String) (data : List (String × List Member)) (errs : List String)
      (c : String),
      c ∈ cs → List.lookup c data = none →
      List.lookup c (loadColumnsAux env dims cs data errs).1 =
        some (match load_dimension env ((dimLookup dims c).getD {}) with
              | .ok out => out.members
              | .error _ => []) := by
  intro cs
  induction cs with
  | nil => intro data errs c hc; exact absurd hc (List.not_mem_nil c)
  | cons c' cs ih =>
    intro data errs c hc hnone
    show List.lookup c (loadColumnsAux env dims (c' :: cs) data errs).1 = _
    rw [loadColumnsAux]
    by_cases hcache : (List.lookup c' data).isSome
    · rw [if_pos hcache]
      rcases List.mem_cons.mp hc with rfl | hc'
      · rw [hnone] at hcache
        exact absurd hcache (by simp)
      · exact ih data errs c hc' hnone
    · rw [if_neg hcache]
      by_cases hceq : c = c'
      · subst hceq
        cases hld : load_dimension env ((dimLookup dims c).getD {}) with
        | ok out =>
          refine loadColumnsAux_lookup_preserved env dims cs _ _ c out.members ?_
          rw [List.lookup_append, hnone]
          simp
        | error e =>
          refine loadColumnsAux_lookup_preserved env dims cs _ _ c [] ?_
          rw [List.lookup_append, hnone]
          simp
      · have hc' : c ∈ cs := by
          rcases List.mem_cons.mp hc with h | h
          · exact absurd h hceq
          · exact h
        have hbeq : (c == c') = false := beq_eq_false_iff_ne.mpr hceq
        cases hld : load_dimension env ((dimLookup dims c').getD {}) with
        | ok out =>
          refine ih _ _ c hc' ?_
          rw [List.lookup_append, hnone]
          simp [List.lookup, hbeq]
        | error e =>
          refine ih _ _ c hc' ?_
          rw [List.lookup_append, hnone]
          simp [List.lookup, hbeq]

/-- Claim C8: when no backing CSV file exists for a dimension,
`load_dimension` returns the empty canonical dataset plus a recorded
warning without raising, and `create_excel` on any structurally valid,
savable template still succeeds, that dimension contributing an empty
lookup sheet. -/
theorem c8_missing_csv_degrades_gracefully
    (env : Env) (dim : DimConfig) (sac : String)
    (hsac : dim.sac_name = some sac) (hex : dim.extract_column = none)
    (hfile : find_csv_file env sac dim.has_hierarchy = none) :
    load_dimension env dim =
      .ok { members := [], warnings := ["CSV file not found for " ++ sac], errors := [] } ∧
    ∀ (dims : List DimConfig) (dateRange : List String) (pdr : Option Nat) (tmpl : Template),
      dimLookup dims dim.name = some dim →
      tmpl.columns ≠ [] →
      (∀ c ∈ tmpl.columns, (dimLookup dims c).isSome) →
      env.saveOk (outputFileOf tmpl) = true →
      ∃ r, create_excel env dims dateRange pdr tmpl = .ok r ∧
        (dim.name ∈ tmpl.columns →
          (strTake dim.name 31, ([] : List Member)) ∈ r.workbook.dimSheets) := by
  have hload : load_dimension env dim =
      .ok { members := [], warnings := ["CSV file not found for " ++ sac], errors := [] } := by
    simp only [load_dimension, hsac, hex, hfile]
  refine ⟨hload, fun dims dateRange pdr tmpl hdl hcols hall hsave => ?_⟩
  have h1 : tmpl.columns.isEmpty = false := by
    cases h : tmpl.columns with
    | nil => exact absurd h hcols
    | cons a l => rfl
  have h2 : tmpl.columns.filter (fun c => (dimLookup dims c).isNone) = [] := by
    rw [List.filter_eq_nil_iff]
    intro c hcmem
    obtain ⟨d, hd⟩ := Option.isSome_iff_exists.mp (hall c hcmem)
    simp [hd]
  have hcore : create_excel env dims dateRange pdr tmpl = .ok {
      workbook := { uploadHeaders := tmpl.columns ++ dateRange,
                    dataRows := tmpl.data_rows.getD (pdr.getD 200),
                    dimSheets := tmpl.columns.map (fun c =>
                      (strTake c 31,
                       (List.lookup c (loadColumnsAux env dims tmpl.columns [] []).1).getD [])),
                    validationRows := pdr.getD 200 },
      path := outputFileOf tmpl,
      dimension_errors := (loadColumnsAux env dims tmpl.columns [] []).2 } := by
    have hc1 : ¬ (tmpl.columns.isEmpty = true) := by
      rw [h1]; exact Bool.false_ne_true
    have hc2 : ¬ ((!(tmpl.columns.filter (fun c => (dimLookup dims c).isNone)).isEmpty) = true) := by
      rw [h2]; simp
    rw [create_excel, if_neg hc1, if_neg hc2]
    exact if_pos hsave
  refine ⟨_, hcore, fun hmem => ?_⟩
  have hlook := loadColumnsAux_lookup_loads env dims tmpl.columns [] [] dim.name hmem rfl
  rw [hdl] at hlook
  have hgetd : dim = (some dim).getD {} := rfl
  rw [← hgetd, hload] at hlook
  refine List.mem_map.mpr ⟨dim.name, hmem, ?_⟩
  rw [hlook]
  rfl

end SacGen

namespace SacGen

/-- Witness for C8: dimension `D` with no CSV on disk loads as empty with
a warning, and the template over column `D` still generates, its lookup
sheet empty. -/
theorem c8_witness :
    load_dimension envNoFiles dimD =
      .ok { members := [], warnings := ["CSV file not found for D"], errors := [] } ∧
    ∃ r, create_excel envNoFiles dimsD ["202501"] none tmplDr5 = .ok r ∧
      (dimD.name ∈ tmplDr5.columns →
        (strTake dimD.name 31, ([] : List Member)) ∈ r.workbook.dimSheets) := by
  have h := c8_missing_csv_degrades_gracefully envNoFiles dimD "D" rfl rfl (by decide)
  exact ⟨h.1, h.2 dimsD ["202501"] none tmplDr5 (by decide) (by decide) (by decide) rfl⟩

/-! ### Per-template isolation of `generate` (claim C9) -/

/-- The `generate` loop splits the template list into successes and
failures by each template's own `create_excel` outcome, independently of
the other templates. -/
theorem generate_spec (env : Env) (dims : List DimConfig) (dr : List String)
    (pdr : Option Nat) :
    ∀ (ts : List Template) (acc : GenAcc),
      ts.foldl
        (fun acc t =>
          match create_excel env dims dr pdr t with
          | .ok _ => { acc with success := acc.success ++ [t.name] }
          | .error e => { acc with failed := acc.failed ++ [(t.name, e)] }) acc =
      { success := acc.success ++ ts.filterMap (fun t =>
          match create_excel env dims dr pdr t with
          | .ok _ => some t.name
          | .error _ => none),
        failed := acc.failed ++ ts.filterMap (fun t =>
          match create_excel env dims dr pdr t with
          | .ok _ => none
          | .error e => some (t.name, e)) } := by
  intro ts
  induction ts with
  | nil =>
    intro acc
    obtain ⟨s, f⟩ := acc
    simp
  | cons t ts ih =>
    intro acc
    rw [List.foldl_cons]
    cases hce : create_excel env dims dr pdr t with
    | ok r =>
      simp only [hce]
      rw [ih]
      simp [List.filterMap_cons, hce]
    | error e =>
      simp only [hce]
      rw [ih]
      simp [List.filterMap_cons, hce]

/-- Each template contributes exactly one entry, to either the success or
the failure side. -/
theorem filterMap_split_length (env : Env) (dims : List DimConfig) (dr : List String)
    (pdr : Option Nat) :
    ∀ (ts : List Template),
      (ts.filterMap (fun t =>
        match create_excel env dims dr pdr t with
        | .ok _ => some t.name
        | .error _ => none)).length +
      (ts.filterMap (fun t =>
        match create_excel env dims dr pdr t with
        | .ok _ => none
        | .error e => some (t.name, e))).length = ts.length := by
  intro ts
  induction ts with
  | nil => rfl
  | cons t ts ih =>
    cases hce : create_excel env dims dr pdr t with
    | ok r =>
      simp only [List.filterMap_cons, hce, List.length_cons]
      omega
    | error e =>
      simp only [List.filterMap_cons, hce, List.length_cons]
      omega

/-- Claim C9: a template with no columns, or referencing an undefined
dimension, fails with a `TemplateError`; in a batch it is recorded as
failed while every other template is still processed on its own outcome —
the batch length is conserved and templates whose own `create_excel`
succeeds are recorded as successes. -/
theorem c9_structural_errors_isolated
    (env : Env) (dims : List DimConfig) (dr : List String) (pdr : Option Nat)
    (ts : List Template) (t : Template)
    (hmem : t ∈ ts)
    (hbad : t.columns = [] ∨ ∃ c ∈ t.columns, dimLookup dims c = none) :
    (∃ m, create_excel env dims dr pdr t = .error (.templateErr m)) ∧
    (∃ e, (t.name, e) ∈ (generate env dims dr pdr ts).failed) ∧
    ((generate env dims dr pdr ts).success.length +
      (generate env dims dr pdr ts).failed.length = ts.length) ∧
    (∀ t' ∈ ts, (∃ r, create_excel env dims dr pdr t' = .ok r) →
      t'.name ∈ (generate env dims dr pdr ts).success) := by
  have hgen : generate env dims dr pdr ts =
      { success := ts.filterMap (fun t =>
          match create_excel env dims dr pdr t with
          | .ok _ => some t.name
          | .error _ => none),
        failed := ts.filterMap (fun t =>
          match create_excel env dims dr pdr t with
          | .ok _ => none
          | .error e => some (t.name, e)) } := by
    have h := generate_spec env dims dr pdr ts ⟨[], []⟩
    simpa [generate] using h
  have h1 : ∃ m, create_excel env dims dr pdr t = .error (.templateErr m) := by
    rcases hbad with hnil | ⟨c, hc, hnone⟩
    · refine ⟨"Template " ++ t.name ++ " has no columns defined", ?_⟩
      have hc1 : t.columns.isEmpty = true := by rw [hnil]; rfl
      rw [create_excel, if_pos hc1]
    · by_cases hcols : t.columns.isEmpty = true
      · refine ⟨"Template " ++ t.name ++ " has no columns defined", ?_⟩
        rw [create_excel, if_pos hcols]
      · refine ⟨"Template " ++ t.name ++ " references undefined dimensions", ?_⟩
        have hcmem : c ∈ t.columns.filter (fun c => (dimLookup dims c).isNone) :=
          List.mem_filter.mpr ⟨hc, by simp [hnone]⟩
        have hmiss : (!(t.columns.filter (fun c => (dimLookup dims c).isNone)).isEmpty) = true := by
          cases hf : t.columns.filter (fun c => (dimLookup dims c).isNone) with
          | nil => rw [hf] at hcmem; exact absurd hcmem (List.not_mem_nil c)
          | cons a l => rfl
        rw [create_excel, if_neg hcols, if_pos hmiss]
  refine ⟨h1, ?_, ?_, ?_⟩
  · obtain ⟨m, hm⟩ := h1
    refine ⟨.templateErr m, ?_⟩
    rw [hgen]
    exact List.mem_filterMap.mpr ⟨t, hmem, by rw [hm]⟩
  · rw [hgen]
    exact filterMap_split_length env dims dr pdr ts
  · intro t' hmem' ⟨r, hr⟩
    rw [hgen]
    exact List.mem_filterMap.mpr ⟨t', hmem', by rw [hr]⟩

/-- Witness for C9: in the two-template batch `[Bad, T]` where `Bad` has
no columns, `Bad` fails with a `TemplateError` and `T` is still processed
and succeeds. -/
theorem c9_witness :
    (∃ m, create_excel envNoFiles dimsD ["202501"] none tmplNoCols = .error (.templateErr m)) ∧
    (∃ e, (tmplNoCols.name, e) ∈
      (generate envNoFiles dimsD ["202501"] none [tmplNoCols, tmplDr5]).failed) ∧
    ((generate envNoFiles dimsD ["202501"] none [tmplNoCols, tmplDr5]).success.length +
      (generate envNoFiles dimsD ["202501"] none [tmplNoCols, tmplDr5]).failed.length = 2) ∧
    (∀ t' ∈ [tmplNoCols, tmplDr5],
      (∃ r, create_excel envNoFiles dimsD ["202501"] none t' = .ok r) →
      t'.name ∈ (generate envNoFiles dimsD ["202501"] none [tmplNoCols, tmplDr5]).success) :=
  c9_structural_errors_isolated envNoFiles dimsD ["202501"] none
    [tmplNoCols, tmplDr5] tmplNoCols (by decide) (Or.inl rfl)

end SacGen
